import Mathlib

/-!
Shallow embedding of `gofigure.go` (package gofigure): a configuration
binder that populates struct fields from an ordered list of sources.
Pure Go functions become Lean functions; the reflective struct mutation
becomes explicit value threading; source method calls are recorded in an
event trace so that call order and arguments can be reasoned about.
-/

namespace Gofig

/-- Go `reflect.Kind` restricted to the kinds the program inspects,
with slices carrying their element kind (`Type.Elem()`). -/
inductive GoKind where
  | bool | int | int8 | int16 | int32 | int64
  | uint | uint8 | uint16 | uint32 | uint64
  | float32 | float64 | string
  | sliceOf (elem : GoKind)
  | chanK | funcK | ptr | uintptrK | complex64 | complex128
  | mapK | structK | arrayK | interfaceK | unsafePointer | invalid
deriving DecidableEq, Repr

/-- Scalar runtime value.  Floating point values are modelled as exact
rationals (the decimal literals exercised here are exactly
representable; IEEE rounding is not modelled). -/
inductive GoScalar where
  | sBool (b : Bool)
  | sInt (i : Int)
  | sUint (n : Nat)
  | sFloat (q : Rat)
  | sString (s : String)
deriving DecidableEq, Repr

/-- Runtime value stored in a struct field: a scalar, a slice of
scalars (the only slices the program builds), or the zero value of an
unsupported kind. -/
inductive GoValue where
  | scalar (v : GoScalar)
  | vSlice (elems : List GoScalar)
  | vZero
deriving DecidableEq, Repr

/-- Errors: the three package-level errors of gofigure.go plus the
`strconv` NumError shapes (function name and literal) and a generic
source-provided error. -/
inductive GoError where
  | invalidOrder
  | unsupportedFieldType
  | invalidEnvPrefix
  | parseError (fn lit : String)
  | rangeError (fn lit : String)
  | srcError (msg : String)
deriving DecidableEq, Repr

instance {e a : Type} [DecidableEq e] [DecidableEq a] :
    DecidableEq (Except e a) := fun x y =>
  match x, y with
  | .ok v, .ok w =>
    if h : v = w then isTrue (by rw [h]) else isFalse (by simp [h])
  | .error v, .error w =>
    if h : v = w then isTrue (by rw [h]) else isFalse (by simp [h])
  | .ok _, .error _ => isFalse (by simp)
  | .error _, .ok _ => isFalse (by simp)

/-- Source lines 241-246: `numVal` maps the empty string to "0" before
numeric parsing. -/
def numVal (i : String) : String :=
  if i.length = 0 then "0" else i

/-- Go `strconv.ParseBool`: the exact literal set accepted by Go. -/
def goParseBool (s : String) : Except GoError Bool :=
  if s = "1" ∨ s = "t" ∨ s = "T" ∨ s = "TRUE" ∨ s = "true" ∨ s = "True" then
    .ok true
  else if s = "0" ∨ s = "f" ∨ s = "F" ∨ s = "FALSE" ∨ s = "false" ∨ s = "False" then
    .ok false
  else
    .error (.parseError "ParseBool" s)

def decDigit (c : Char) : Option Nat :=
  if '0' ≤ c ∧ c ≤ '9' then some (c.toNat - '0'.toNat) else none

def digitsVal : List Char → Nat → Option Nat
  | [], acc => some acc
  | c :: rest, acc =>
    match decDigit c with
    | none => none
    | some d => digitsVal rest (acc * 10 + d)

/-- A non-empty all-digit run evaluated in base 10; `none` otherwise. -/
def parseDigits (cs : List Char) : Option Nat :=
  match cs with
  | [] => none
  | _ => digitsVal cs 0

/-- Go `strconv.ParseUint(s, 10, bits)`: no sign permitted, base-10
digits, range error above `2^bits - 1`. -/
def goParseUint (s : String) (bits : Nat) : Except GoError Nat :=
  match parseDigits s.data with
  | none => .error (.parseError "ParseUint" s)
  | some n =>
    if n ≤ 2 ^ bits - 1 then .ok n else .error (.rangeError "ParseUint" s)

/-- Go `strconv.ParseInt(s, 10, bits)`: optional sign, base-10 digits,
range `[-2^(bits-1), 2^(bits-1) - 1]`. -/
def goParseInt (s : String) (bits : Nat) : Except GoError Int :=
  let signed : Bool × List Char :=
    match s.data with
    | '+' :: r => (false, r)
    | '-' :: r => (true, r)
    | r => (false, r)
  match parseDigits signed.2 with
  | none => .error (.parseError "ParseInt" s)
  | some n =>
    let v : Int := if signed.1 then -(n : Int) else (n : Int)
    if -(2 ^ (bits - 1) : Int) ≤ v ∧ v ≤ (2 ^ (bits - 1) : Int) - 1 then
      .ok v
    else
      .error (.rangeError "ParseInt" s)

/-- Digit-level stage of Go `strconv.ParseFloat` restricted to plain
decimal forms: optional sign, integer digits, optional fractional
digits, at least one digit in total.  Exponents, hex floats, Inf and
NaN are not modelled (the claims never exercise them).  Returns the
sign, the combined digit value and the number of fractional digits. -/
def goParseFloatRaw (s : String) : Option (Bool × Nat × Nat) :=
  let signed : Bool × List Char :=
    match s.data with
    | '+' :: r => (false, r)
    | '-' :: r => (true, r)
    | r => (false, r)
  let ip := signed.2.takeWhile Char.isDigit
  let t2 := signed.2.dropWhile Char.isDigit
  match t2 with
  | [] =>
    match parseDigits ip with
    | none => none
    | some n => some (signed.1, n, 0)
  | '.' :: rest =>
    let fp := rest.takeWhile Char.isDigit
    let t3 := rest.dropWhile Char.isDigit
    if t3 ≠ [] then none
    else
      match digitsVal (ip ++ fp) 0 with
      | none => none
      | some n =>
        if ip = [] ∧ fp = [] then none
        else some (signed.1, n, fp.length)
  | _ => none

/-- Go `strconv.ParseFloat` as the exact rational value of the decimal
literal (IEEE rounding not modelled; the claims only exercise exactly
representable values). -/
def goParseFloat (s : String) (_bits : Nat) : Except GoError Rat :=
  match goParseFloatRaw s with
  | none => .error (.parseError "ParseFloat" s)
  | some (neg, num, fracLen) =>
    let q : Rat := (num : Rat) / ((10 : Rat) ^ fracLen)
    .ok (if neg then -q else q)

/-- The type switch of `populateDefaultType` (source lines 266-353).
Besides the coerced value it returns the final contents of the Go
variable `val`: the Bool branch rewrites an empty `val` to "false", and
since `prevVal` aliases `val` (line 262 takes its address), that rewrite
is what the next source observes as `previous`. -/
def coerceScalar (kind : GoKind) (val0 : String) : Except GoError (GoScalar × String) :=
  match kind with
  | .bool =>
    let val := if val0.length = 0 then "false" else val0
    match goParseBool val with
    | .error e => .error e
    | .ok b => .ok (.sBool b, val)
  | .int =>
    match goParseInt (numVal val0) 64 with
    | .error e => .error e
    | .ok i => .ok (.sInt i, val0)
  | .int8 =>
    match goParseInt (numVal val0) 8 with
    | .error e => .error e
    | .ok i => .ok (.sInt i, val0)
  | .int16 =>
    match goParseInt (numVal val0) 16 with
    | .error e => .error e
    | .ok i => .ok (.sInt i, val0)
  | .int32 =>
    match goParseInt (numVal val0) 32 with
    | .error e => .error e
    | .ok i => .ok (.sInt i, val0)
  | .int64 =>
    match goParseInt (numVal val0) 64 with
    | .error e => .error e
    | .ok i => .ok (.sInt i, val0)
  | .uint =>
    match goParseUint (numVal val0) 64 with
    | .error e => .error e
    | .ok n => .ok (.sUint n, val0)
  | .uint8 =>
    match goParseUint (numVal val0) 8 with
    | .error e => .error e
    | .ok n => .ok (.sUint n, val0)
  | .uint16 =>
    match goParseUint (numVal val0) 16 with
    | .error e => .error e
    | .ok n => .ok (.sUint n, val0)
  | .uint32 =>
    match goParseUint (numVal val0) 32 with
    | .error e => .error e
    | .ok n => .ok (.sUint n, val0)
  | .uint64 =>
    match goParseUint (numVal val0) 64 with
    | .error e => .error e
    | .ok n => .ok (.sUint n, val0)
  | .float32 =>
    match goParseFloat (numVal val0) 32 with
    | .error e => .error e
    | .ok q => .ok (.sFloat q, val0)
  | .float64 =>
    match goParseFloat (numVal val0) 64 with
    | .error e => .error e
    | .ok q => .ok (.sFloat q, val0)
  | .string => .ok (.sString val0, val0)
  | _ => .error .unsupportedFieldType

/-- Element kinds handled by the inner switch of `populateSliceType`
(source lines 381-476): string and the signed/unsigned integers.  All
other element kinds fall into the default case, whose error return is
commented out in the source (lines 477-480). -/
def sliceElemSupported : GoKind → Bool
  | .string | .int | .int8 | .int16 | .int32 | .int64
  | .uint | .uint8 | .uint16 | .uint32 | .uint64 => true
  | _ => false

/-- Per-element parse of `populateSliceType`: each case feeds
`numVal(s)` to the width-appropriate strconv parser exactly as the
corresponding `case` of the inner switch does. -/
def elemCoerce (ek : GoKind) (s : String) : Except GoError GoScalar :=
  match ek with
  | .string => .ok (.sString s)
  | .int =>
    match goParseInt (numVal s) 64 with
    | .error e => .error e
    | .ok i => .ok (.sInt i)
  | .int8 =>
    match goParseInt (numVal s) 8 with
    | .error e => .error e
    | .ok i => .ok (.sInt i)
  | .int16 =>
    match goParseInt (numVal s) 16 with
    | .error e => .error e
    | .ok i => .ok (.sInt i)
  | .int32 =>
    match goParseInt (numVal s) 32 with
    | .error e => .error e
    | .ok i => .ok (.sInt i)
  | .int64 =>
    match goParseInt (numVal s) 64 with
    | .error e => .error e
    | .ok i => .ok (.sInt i)
  | .uint =>
    match goParseUint (numVal s) 64 with
    | .error e => .error e
    | .ok n => .ok (.sUint n)
  | .uint8 =>
    match goParseUint (numVal s) 8 with
    | .error e => .error e
    | .ok n => .ok (.sUint n)
  | .uint16 =>
    match goParseUint (numVal s) 16 with
    | .error e => .error e
    | .ok n => .ok (.sUint n)
  | .uint32 =>
    match goParseUint (numVal s) 32 with
    | .error e => .error e
    | .ok n => .ok (.sUint n)
  | .uint64 =>
    match goParseUint (numVal s) 64 with
    | .error e => .error e
    | .ok n => .ok (.sUint n)
  | _ => .error .unsupportedFieldType

/-- The per-source append loop of one `case` of the inner switch:
`for _, s := range val { ...parse...; reflect.Append... }`, aborting on
the first element that fails to parse. -/
def appendElemsLoop (f : String → Except GoError GoScalar) :
    List GoScalar → List String → Except GoError (List GoScalar)
  | cur, [] => .ok cur
  | cur, s :: rest =>
    match f s with
    | .error e => .error e
    | .ok v => appendElemsLoop f (cur ++ [v]) rest

/-- The inner switch of `populateSliceType` over the element kind: a
supported kind appends each parsed element; an unsupported kind hits
the default case, which does nothing because its
`return ErrUnsupportedFieldType` is commented out in the source. -/
def appendElems (ek : GoKind) (cur : List GoScalar) (vs : List String) :
    Except GoError (List GoScalar) :=
  if sliceElemSupported ek then appendElemsLoop (elemCoerce ek) cur vs
  else .ok cur

/-- One recorded call on a source: Init, Register, Get, GetArray or
Cleanup, together with the arguments the engine passed. -/
inductive Event where
  | initEv (src : String)
  | registerEv (src key : String)
  | getEv (src key : String) (prev : Option String)
  | getArrayEv (src key : String) (prev : Option (List String))
  | cleanupEv (src : String)
deriving DecidableEq, Repr

def Event.isCleanup : Event → Bool
  | .cleanupEv _ => true
  | _ => false

/-- Pure behaviour of a source implementation (the `sources.Source`
interface): what each method returns when called with given arguments.
Cleanup never fails and returns nothing, so it needs no field. -/
structure SourceBeh where
  initB : List (String × String) → Except GoError Unit
  registerB : String → String → List (String × String) → GoKind → Except GoError Unit
  getB : String → Option String → Except GoError String
  getArrayB : String → Option (List String) → Except GoError (List String)

/-- Assoc-list lookup standing in for Go map indexing. -/
def alookup : List (String × String) → String → Option String
  | [], _ => none
  | (k, v) :: rest, key => if k = key then some v else alookup rest key

/-- `Gofiguritem` (source lines 49-54): per-field descriptor plus the
current contents of the reflected field value. -/
structure Gofiguritem where
  keys : List (String × String)
  field : String
  kind : GoKind
  value : GoValue
deriving DecidableEq, Repr

/-- The key-name computation repeated in the populate and register
loops: the per-source key override from the field's tags, falling back
to the field name. -/
def keyName (gfi : Gofiguritem) (source : String) : String :=
  match alookup gfi.keys source with
  | some k => k
  | none => gfi.field

/-- `populateDefaultType` (source lines 248-357) with the previous
value threaded explicitly.  `prevVal` starts nil and is set to the
address of `val` after each Get; because the Bool branch of the switch
reassigns `val`, the threaded value is the second component returned by
`coerceScalar`.  Each iteration coerces and writes the field. -/
def populateDefaultTypeAux (beh : String → SourceBeh) (gfi : Gofiguritem)
    (prev : Option String) :
    List String → Except GoError Gofiguritem × List Event
  | [] => (.ok gfi, [])
  | source :: rest =>
    let kn := keyName gfi source
    match (beh source).getB kn prev with
    | .error e => (.error e, [.getEv source kn prev])
    | .ok val =>
      match coerceScalar gfi.kind val with
      | .error e => (.error e, [.getEv source kn prev])
      | .ok vw =>
        let next := populateDefaultTypeAux beh { gfi with value := .scalar vw.1 }
          (some vw.2) rest
        (next.1, .getEv source kn prev :: next.2)

/-- Entry point of the scalar population algorithm: `prevVal` is nil
before the first source. -/
def populateDefaultType (beh : String → SourceBeh) (gfi : Gofiguritem)
    (order : List String) : Except GoError Gofiguritem × List Event :=
  populateDefaultTypeAux beh gfi none order

/-- The current elements of a slice-valued field. -/
def getSliceElems : GoValue → List GoScalar
  | .vSlice l => l
  | _ => []

/-- `populateSliceType` (source lines 359-485).  `prevVal` is declared
but never assigned — the assignment on line 375 is commented out — so
every GetArray call receives nil.  The outer switch only has a Slice
case; for a non-slice kind nothing happens and the loop continues. -/
def populateSliceType (beh : String → SourceBeh) (gfi : Gofiguritem) :
    List String → Except GoError Gofiguritem × List Event
  | [] => (.ok gfi, [])
  | source :: rest =>
    let kn := keyName gfi source
    match (beh source).getArrayB kn none with
    | .error e => (.error e, [.getArrayEv source kn none])
    | .ok val =>
      match gfi.kind with
      | .sliceOf ek =>
        match appendElems ek (getSliceElems gfi.value) val with
        | .error e => (.error e, [.getArrayEv source kn none])
        | .ok elems =>
          let next := populateSliceType beh { gfi with value := .vSlice elems } rest
          (next.1, .getArrayEv source kn none :: next.2)
      | _ =>
        let next := populateSliceType beh gfi rest
        (next.1, .getArrayEv source kn none :: next.2)

/-- The kinds `populateStruct` (source lines 487-535) rejects directly
with `ErrUnsupportedFieldType`: Invalid, Uintptr, Complex64/128, Chan,
Func, Ptr, UnsafePointer, Interface, Map, Struct and Array. -/
def topUnsupported : GoKind → Bool
  | .invalid | .uintptrK | .complex64 | .complex128 | .chanK | .funcK
  | .ptr | .unsafePointer | .interfaceK | .mapK | .structK | .arrayK => true
  | _ => false

/-- The per-field switch of `populateStruct`: unsupported kinds error,
Slice goes to `populateSliceType`, everything else to
`populateDefaultType`. -/
def populateStructField (beh : String → SourceBeh) (order : List String)
    (gfi : Gofiguritem) : Except GoError Gofiguritem × List Event :=
  if topUnsupported gfi.kind then (.error .unsupportedFieldType, [])
  else
    match gfi.kind with
    | .sliceOf _ => populateSliceType beh gfi order
    | _ => populateDefaultType beh gfi order

/-- The field loop of `populateStruct`.  Go iterates the `fields` map in
unspecified order; the embedding fixes a list order (the claims proved
here do not depend on the cross-field order). -/
def populateStruct (beh : String → SourceBeh) (order : List String) :
    List Gofiguritem → Except GoError (List Gofiguritem) × List Event
  | [] => (.ok [], [])
  | gfi :: rest =>
    match populateStructField beh order gfi with
    | (.error e, evs) => (.error e, evs)
    | (.ok gfi2, evs) =>
      match populateStruct beh order rest with
      | (.error e, evs2) => (.error e, evs ++ evs2)
      | (.ok rest2, evs2) => (.ok (gfi2 :: rest2), evs ++ evs2)

/-- `Gofiguration` (source lines 36-42): parsed order, per-source
parameters and field descriptors. -/
structure Gofiguration where
  order : List String
  params : List (String × List (String × String))
  fields : List Gofiguritem
deriving DecidableEq, Repr

/-- Nested assoc lookup for `gfg.params[o]`; a missing entry is Go's
nil map, passed to Init as the empty parameter list. -/
def paramsLookup (params : List (String × List (String × String)))
    (src : String) : List (String × String) :=
  match params.find? (fun p => p.1 = src) with
  | some p => p.2
  | none => []

/-- `initSources` (source lines 214-222): Init each source in order,
aborting on the first error (remaining sources are not initialized). -/
def initSources (beh : String → SourceBeh)
    (params : List (String × List (String × String))) :
    List String → Except GoError Unit × List Event
  | [] => (.ok (), [])
  | o :: rest =>
    match (beh o).initB (paramsLookup params o) with
    | .error e => (.error e, [.initEv o])
    | .ok _ =>
      let next := initSources beh params rest
      (next.1, .initEv o :: next.2)

/-- Inner loop of `registerFields` (source lines 226-237): Register the
field with every source in order, with key override, empty default, the
raw tag map and the field kind. -/
def registerField (beh : String → SourceBeh) (gfi : Gofiguritem) :
    List String → Except GoError Unit × List Event
  | [] => (.ok (), [])
  | o :: rest =>
    let kn := keyName gfi o
    match (beh o).registerB kn "" gfi.keys gfi.kind with
    | .error e => (.error e, [.registerEv o kn])
    | .ok _ =>
      let next := registerField beh gfi rest
      (next.1, .registerEv o kn :: next.2)

/-- Outer loop of `registerFields` (source lines 224-239). -/
def registerFields (beh : String → SourceBeh) (order : List String) :
    List Gofiguritem → Except GoError Unit × List Event
  | [] => (.ok (), [])
  | gfi :: rest =>
    match registerField beh gfi order with
    | (.error e, evs) => (.error e, evs)
    | (.ok _, evs) =>
      let next := registerFields beh order rest
      (next.1, evs ++ next.2)

/-- `cleanupSources` (source lines 208-212): Cleanup every source in
order, ignoring output; modelled as the events it emits. -/
def cleanupSources (order : List String) : List Event :=
  order.map Event.cleanupEv

/-- `Apply` (source lines 538-552): `defer cleanupSources` runs the
cleanup loop on every exit path, after init, register and populate,
whichever of them aborted. -/
def Apply (beh : String → SourceBeh) (gfg : Gofiguration) :
    Except GoError (List Gofiguritem) × List Event :=
  match initSources beh gfg.params gfg.order with
  | (.error e, e1) => (.error e, e1 ++ cleanupSources gfg.order)
  | (.ok _, e1) =>
    match registerFields beh gfg.order gfg.fields with
    | (.error e, e2) => (.error e, e1 ++ e2 ++ cleanupSources gfg.order)
    | (.ok _, e2) =>
      match populateStruct beh gfg.order gfg.fields with
      | (r, e3) => (r, e1 ++ e2 ++ e3 ++ cleanupSources gfg.order)

/-- The name-scan predicate of `getStructTags` (source line 120): a
name char is anything but space, colon and double quote. -/
def isNameChar (c : Char) : Bool := c ≠ ' ' && c ≠ ':' && c ≠ '"'

/-- The quoted-value scan of `getStructTags` (source lines 129-139),
started just after the opening quote: a backslash skips the next
character; the scan succeeds at an unescaped closing quote and fails
(loop index past the end, triggering the `break`) if the input ends
first.  Returns the raw content before the closing quote and the
remainder after it. -/
def scanQ : List Char → Option (List Char × List Char)
  | [] => none
  | c :: rest =>
    if c = '"' then some ([], rest)
    else if c = '\\' then
      match rest with
      | [] => none
      | d :: rest2 =>
        match scanQ rest2 with
        | some (v, r) => some (c :: d :: v, r)
        | none => none
    else
      match scanQ rest with
      | some (v, r) => some (c :: v, r)
      | none => none

theorem scanQ_length (l : List Char) :
    ∀ v r, scanQ l = some (v, r) → r.length < l.length := by
  induction l using scanQ.induct with
  | case1 => intro v r h; rw [scanQ.eq_def] at h; simp at h
  | case2 rest2 =>
    intro v r h
    rw [scanQ.eq_def] at h
    simp only [Option.some.injEq, Prod.mk.injEq, reduceIte] at h
    obtain ⟨h1, h2⟩ := h
    subst h2
    simp
  | case3 hne =>
    intro v r h
    rw [scanQ.eq_def] at h
    simp only [reduceIte] at h
    rw [if_neg (by decide : ¬('\\' : Char) = '"')] at h
    simp at h
  | case4 d rest2 v0 r0 hvr hne ih =>
    intro v r h
    rw [scanQ.eq_def] at h
    simp only [hvr, reduceIte] at h
    rw [if_neg (by decide : ¬('\\' : Char) = '"')] at h
    simp only [Option.some.injEq, Prod.mk.injEq] at h
    obtain ⟨h1, h2⟩ := h
    subst h2
    have := ih v0 r0 hvr
    simp only [List.length_cons]
    omega
  | case5 d rest2 hnone hne ih =>
    intro v r h
    rw [scanQ.eq_def] at h
    simp only [hnone, reduceIte] at h
    rw [if_neg (by decide : ¬('\\' : Char) = '"')] at h
    simp at h
  | case6 d rest2 hq hb v0 r0 hvr ih =>
    intro v r h
    rw [scanQ.eq_def] at h
    simp only [hvr, reduceIte] at h
    rw [if_neg hq, if_neg hb] at h
    simp only [Option.some.injEq, Prod.mk.injEq] at h
    obtain ⟨h1, h2⟩ := h
    subst h2
    have := ih v0 r0 hvr
    simp only [List.length_cons]
    omega
  | case7 d rest2 hq hb hnone ih =>
    intro v r h
    rw [scanQ.eq_def] at h
    simp only [hnone, reduceIte] at h
    rw [if_neg hq, if_neg hb] at h
    simp at h

/-- Go `strconv.Unquote` on the content between the quotes of a
double-quoted string: plain characters pass through; the simple escape
sequences map to their characters; a raw newline, a raw quote, a
trailing backslash, and the numeric and unicode escape forms (which the
claims never exercise) are modelled as failure. -/
def unquoteChars : List Char → Option (List Char)
  | [] => some []
  | c :: rest =>
    if c = '\\' then
      match rest with
      | [] => none
      | e :: r =>
        let esc : Option Char :=
          if e = 'n' then some '\n'
          else if e = 't' then some '\t'
          else if e = 'r' then some '\r'
          else if e = '\\' then some '\\'
          else if e = '"' then some '"'
          else if e = 'a' then some (Char.ofNat 7)
          else if e = 'b' then some (Char.ofNat 8)
          else if e = 'f' then some (Char.ofNat 12)
          else if e = 'v' then some (Char.ofNat 11)
          else none
        match esc, unquoteChars r with
        | some c0, some cs => some (c0 :: cs)
        | _, _ => none
    else if c = '"' then none
    else if c = '\n' then none
    else
      match unquoteChars rest with
      | some cs => some (c :: cs)
      | none => none

/-- Source line 143: `value, _ := strconv.Unquote(qvalue)` drops the
error, so a failing unquote stores the Go string zero value (empty). -/
def goUnquote (content : List Char) : String :=
  match unquoteChars content with
  | some cs => cs.asString
  | none => ""

/-- Go map assignment `m[name] = value`: overwrite the existing entry
or append a new one. -/
def tagsInsert (m : List (String × String)) (k v : String) :
    List (String × String) :=
  match m with
  | [] => [(k, v)]
  | (k0, v0) :: rest =>
    if k0 = k then (k, v) :: rest else (k0, v0) :: tagsInsert rest k v

/-- The colon-and-opening-quote check of `getStructTags` (source line
123): the name scan must stop exactly at a colon that is immediately
followed by a double quote. -/
def colonQuote : List Char → Option (List Char)
  | ':' :: '"' :: rest => some rest
  | _ => none

theorem colonQuote_length (l r : List Char) (h : colonQuote l = some r) :
    r.length + 2 = l.length := by
  unfold colonQuote at h
  split at h
  · cases h; simp
  · simp at h

/-- One iteration of the `getStructTags` loop (source lines 106-145):
skip leading spaces; stop at the end of the tag; scan the name; require
a colon and opening quote; scan the quoted value; unquote it.  Each of
the three `break` conditions yields `none`. -/
def parseOneTag (tag : List Char) : Option ((String × String) × List Char) :=
  if (tag.dropWhile (fun c => c == ' ')).isEmpty then none
  else
    match colonQuote ((tag.dropWhile (fun c => c == ' ')).dropWhile isNameChar) with
    | none => none
    | some rest2 =>
      match scanQ rest2 with
      | some (content, r) =>
        some ((((tag.dropWhile (fun c => c == ' ')).takeWhile isNameChar).asString,
          goUnquote content), r)
      | none => none

theorem dropWhileLen {α : Type} (p : α → Bool) (l : List α) :
    (l.dropWhile p).length ≤ l.length := by
  induction l with
  | nil => simp
  | cons a t ih =>
    rw [List.dropWhile_cons]
    split
    · exact Nat.le_succ_of_le ih
    · exact Nat.le_refl _

theorem parseOneTag_length (tag : List Char) (kv : String × String)
    (r : List Char) (h : parseOneTag tag = some (kv, r)) :
    r.length < tag.length := by
  have h1 : (tag.dropWhile (fun c => c == ' ')).length ≤ tag.length :=
    dropWhileLen _ _
  have h2 : ((tag.dropWhile (fun c => c == ' ')).dropWhile isNameChar).length ≤
      (tag.dropWhile (fun c => c == ' ')).length :=
    dropWhileLen _ _
  unfold parseOneTag at h
  split at h
  · simp at h
  · split at h
    · simp at h
    · next rest2 hcq =>
      have h3 := colonQuote_length _ _ hcq
      split at h
      · next content r0 hsq =>
        have h4 := scanQ_length _ _ _ hsq
        simp only [Option.some.injEq, Prod.mk.injEq] at h
        obtain ⟨-, h5⟩ := h
        subst h5
        omega
      · simp at h

/-- The whole `getStructTags` loop (source lines 103-147): consume one
tag per iteration, inserting each parsed pair into the map, and stop at
the end of the input or at the first malformed token.  The Go loop runs
until the tag is exhausted; here it is written with explicit fuel so
that it stays structurally recursive (kernel-evaluable):
`parseOneTag_length` shows each iteration consumes at least one
character, so `length + 1` fuel is never exhausted before the loop
stops by itself. -/
def getStructTagsFuel : Nat → List Char → List (String × String) →
    List (String × String)
  | 0, _, m => m
  | fuel + 1, tag, m =>
    match parseOneTag tag with
    | none => m
    | some (kv, r) => getStructTagsFuel fuel r (tagsInsert m kv.1 kv.2)

/-- `getStructTags` (source lines 103-147). -/
def getStructTags (tag : String) : List (String × String) :=
  getStructTagsFuel (tag.length + 1) tag.data []

/-- Lowercase ASCII letter, the `[a-z]` class of `argRe`. -/
def isLowerAZ (c : Char) : Bool := 'a' ≤ c && c ≤ 'z'

/-- Uppercase ASCII letter, the `[A-Z]` class of `argRe` and
`ReEnvPrefix`. -/
def isUpperAZ (c : Char) : Bool := 'A' ≤ c && c ≤ 'Z'

/-- `argRe.FindStringSubmatch` for the pattern
`([a-z]+)([A-Z][a-z]+)` (source line 149), with Go's leftmost-first
unanchored semantics: the match starts at the first lowercase run that
is immediately followed by an uppercase letter and at least one more
lowercase letter; both groups are greedy, and a failed run is skipped
whole (restarting inside the same lowercase run reaches the same
follower and fails the same way). -/
def argReFind : List Char → Option (List Char × List Char)
  | [] => none
  | c :: rest =>
    if isLowerAZ c then
      match rest.dropWhile isLowerAZ with
      | u :: rest2 =>
        if isUpperAZ u && (match rest2 with
            | c2 :: _ => isLowerAZ c2
            | [] => false) then
          some (c :: rest.takeWhile isLowerAZ, u :: rest2.takeWhile isLowerAZ)
        else argReFind rest
      | [] => none
    else argReFind rest

/-- The map keys of the `Sources` registry (source lines 57-60). -/
def sourcesNames : List String := ["env", "flag"]

/-- `DefaultOrder` (source line 63). -/
def DefaultOrder : List String := ["env", "flag"]

/-- Go `strings.Split(value, ",")`: split on every comma; splitting
the empty string yields a list with one empty element. -/
def splitCommaAux : List Char → List Char → List String
  | [], acc => [acc.reverse.asString]
  | c :: rest, acc =>
    if c = ',' then acc.reverse.asString :: splitCommaAux rest []
    else splitCommaAux rest (c :: acc)

def splitComma (s : String) : List String := splitCommaAux s.data []

/-- Go `strings.ToLower` restricted to ASCII (the matched suffix is
ASCII letters by construction of `argRe`). -/
def toLowerAscii (c : Char) : Char :=
  if 'A' ≤ c && c ≤ 'Z' then Char.ofNat (c.toNat + 32) else c

/-- Assignment into the nested params map (source lines 173-176):
create the inner map for the source on first use, then assign the
lowercased parameter name. -/
def paramsInsert (params : List (String × List (String × String)))
    (src param value : String) : List (String × List (String × String)) :=
  match params with
  | [] => [(src, [(param, value)])]
  | (k, m) :: rest =>
    if k = src then (k, tagsInsert m param value) :: rest
    else (k, m) :: paramsInsert rest src param value

/-- Handling of a non-`order` directive key (source lines 166-177):
run `argRe` on the key; when it matches, store the value under
`params[group1][strings.ToLower(group2)]`; otherwise ignore the key. -/
def handleArgKey (params : List (String × List (String × String)))
    (name value : String) : List (String × List (String × String)) :=
  match argReFind name.data with
  | some g => paramsInsert params g.1.asString ((g.2.map toLowerAscii).asString) value
  | none => params

/-- The directive loop of `parseGofigureField` (source lines 155-178):
an `order` key splits its value on commas and requires every part to be
a registered source name, failing with `ErrInvalidOrder` otherwise; any
other key goes through `argRe` handling.  Go iterates the tag map in
unspecified order; the embedding iterates in parsed order (the claims
proved here do not depend on it). -/
def parseGofigureLoop (gfg : Gofiguration) :
    List (String × String) → Except GoError Gofiguration
  | [] => .ok gfg
  | (name, value) :: rest =>
    if name = "order" then
      if (splitComma value).all (fun p => sourcesNames.contains p) then
        parseGofigureLoop { gfg with order := splitComma value } rest
      else .error .invalidOrder
    else
      parseGofigureLoop { gfg with params := handleArgKey gfg.params name value } rest

/-- A declared struct field as reflection sees it: name, raw tag
string, kind. -/
structure GoStructField where
  name : String
  tag : String
  kind : GoKind
deriving DecidableEq, Repr

/-- The record type handed to `ParseStruct`: its declared fields in
declaration order. -/
structure GoStruct where
  fields : List GoStructField
deriving DecidableEq, Repr

/-- `parseGofigureField` (source lines 151-181): look up the sentinel
`gofigure` field by name; when present, parse its tag and run the
directive loop; otherwise keep the defaults. -/
def parseGofigureField (s : GoStruct) (gfg : Gofiguration) :
    Except GoError Gofiguration :=
  match s.fields.find? (fun f => f.name = "gofigure") with
  | some gf => parseGofigureLoop gfg (getStructTags gf.tag)
  | none => .ok gfg

/-- The Go zero value of each kind, the contents of a freshly declared
record field. -/
def zeroValue : GoKind → GoValue
  | .bool => .scalar (.sBool false)
  | .int | .int8 | .int16 | .int32 | .int64 => .scalar (.sInt 0)
  | .uint | .uint8 | .uint16 | .uint32 | .uint64 => .scalar (.sUint 0)
  | .float32 | .float64 => .scalar (.sFloat 0)
  | .string => .scalar (.sString "")
  | .sliceOf _ => .vSlice []
  | _ => .vZero

/-- `parseFields` (source lines 183-206): build one Gofiguritem per
declared field, skipping the sentinel `gofigure` field; keys start as
the empty map and are replaced by the parsed tag when the tag is
non-empty. -/
def parseFields (s : GoStruct) : List Gofiguritem :=
  (s.fields.filter (fun f => ¬f.name = "gofigure")).map (fun f =>
    { field := f.name
      kind := f.kind
      value := zeroValue f.kind
      keys := if f.tag.length > 0 then getStructTags f.tag else [] })

/-- `ParseStruct` (source lines 82-101): defaults, then the directive
field, then the per-field descriptors. -/
def ParseStruct (s : GoStruct) : Except GoError Gofiguration :=
  match parseGofigureField s
      { order := DefaultOrder, params := [], fields := [] } with
  | .error e => .error e
  | .ok gfg => .ok { gfg with fields := parseFields s }

/-- `Gofigure` (source lines 555-561): ParseStruct then Apply.  A
ParseStruct failure returns before any source is touched, hence the
empty event trace. -/
def Gofigure (beh : String → SourceBeh) (s : GoStruct) :
    Except GoError (List Gofiguritem) × List Event :=
  match ParseStruct s with
  | .error e => (.error e, [])
  | .ok gfg => Apply beh gfg

/-- The `[A-Z0-9_]` class of `ReEnvPrefix`. -/
def isEnvPrefixChar (c : Char) : Bool :=
  isUpperAZ c || ('0' ≤ c && c ≤ '9') || c = '_'

/-- The anchored language of
`ReEnvPrefix = regexp.MustCompile("^([A-Z][A-Z0-9_]+|)$")` (source line
67): the empty string, or an uppercase letter followed by AT LEAST ONE
further character from `[A-Z0-9_]` (note the `+`). -/
def reEnvPrefixMatch (s : String) : Bool :=
  match s.data with
  | [] => true
  | c :: rest => isUpperAZ c && !rest.isEmpty && rest.all isEnvPrefixChar

/-- Modelled from the spec: the language the spec states for the
environment prefix check, the anchored regex `[A-Z][A-Z0-9_]*` or the
empty string (spec 4.3, claim C9), for comparison with the regex
actually compiled by the source, `reEnvPrefixMatch`. -/
def specEnvPrefixMatch (s : String) : Bool :=
  match s.data with
  | [] => true
  | c :: rest => isUpperAZ c && rest.all isEnvPrefixChar

/-- Convenience for concrete witnesses: a source behaviour whose Init
and Register trivially succeed, with the given Get and GetArray
behaviour. -/
def mkBeh (g : String → Option String → Except GoError String)
    (ga : String → Option (List String) → Except GoError (List String)) :
    SourceBeh :=
  { initB := fun _ => .ok ()
    registerB := fun _ _ _ _ => .ok ()
    getB := g
    getArrayB := ga }

/-- C8: coercing the empty string yields false for a bool field and
zero for every integer and floating-point field, via the empty-to-"0"
rewrite of numVal. -/
theorem c8_empty_string_zero :
    numVal "" = "0" ∧
    coerceScalar .bool "" = .ok (.sBool false, "false") ∧
    coerceScalar .int "" = .ok (.sInt 0, "") ∧
    coerceScalar .int8 "" = .ok (.sInt 0, "") ∧
    coerceScalar .int16 "" = .ok (.sInt 0, "") ∧
    coerceScalar .int32 "" = .ok (.sInt 0, "") ∧
    coerceScalar .int64 "" = .ok (.sInt 0, "") ∧
    coerceScalar .uint "" = .ok (.sUint 0, "") ∧
    coerceScalar .uint8 "" = .ok (.sUint 0, "") ∧
    coerceScalar .uint16 "" = .ok (.sUint 0, "") ∧
    coerceScalar .uint32 "" = .ok (.sUint 0, "") ∧
    coerceScalar .uint64 "" = .ok (.sUint 0, "") ∧
    coerceScalar .float32 "" = .ok (.sFloat 0, "") ∧
    coerceScalar .float64 "" = .ok (.sFloat 0, "") := by
  have h0 : goParseFloatRaw "0" = some (false, 0, 0) := by decide
  have hnum : numVal "" = "0" := by decide
  refine ⟨by decide, by decide, by decide, by decide, by decide, by decide,
    by decide, by decide, by decide, by decide, by decide, by decide, ?_, ?_⟩
  · show coerceScalar .float32 "" = .ok (.sFloat 0, "")
    simp [coerceScalar, hnum, goParseFloat, h0]
  · show coerceScalar .float64 "" = .ok (.sFloat 0, "")
    simp [coerceScalar, hnum, goParseFloat, h0]

/-- C9 counterexample: the compiled regex `^([A-Z][A-Z0-9_]+|)$`
requires at least two characters after the anchors, so the
single-uppercase-letter prefix "A" is rejected, although the language
the claim states, `^[A-Z][A-Z0-9_]*$` or empty, accepts it. -/
theorem c9_counterexample :
    reEnvPrefixMatch "A" = false ∧ specEnvPrefixMatch "A" = true := by
  decide

/-- C9 (amended): the prefix validation accepts exactly the empty
string and the strings of an uppercase letter followed by at least one
more character from [A-Z0-9_]; single-character prefixes are
rejected. -/
theorem c9_amended (s : String) :
    reEnvPrefixMatch s = true ↔
      (s.data = [] ∨ ∃ c rest, s.data = c :: rest ∧ isUpperAZ c = true ∧
        rest ≠ [] ∧ ∀ x ∈ rest, isEnvPrefixChar x = true) := by
  obtain ⟨cs⟩ := s
  cases cs with
  | nil => simp [reEnvPrefixMatch]
  | cons c rest =>
    show (isUpperAZ c && !rest.isEmpty && rest.all isEnvPrefixChar) = true ↔ _
    constructor
    · intro h
      simp only [Bool.and_eq_true, List.all_eq_true] at h
      obtain ⟨⟨hu, hne⟩, hall⟩ := h
      have hrest : rest ≠ [] := by
        intro hr
        subst hr
        simp at hne
      exact Or.inr ⟨c, rest, rfl, hu, hrest, hall⟩
    · rintro (h | ⟨c2, rest2, heq, hu, hne, hall⟩)
      · exact absurd h (by simp)
      · injection heq with h1 h2
        subst h1
        subst h2
        simp only [Bool.and_eq_true, List.all_eq_true]
        refine ⟨⟨hu, ?_⟩, hall⟩
        cases rest with
        | nil => exact absurd rfl hne
        | cons a t => simp

/-- C2 counterexample: an int field with order [a, b] where a returns
the malformed "abc" and b returns the well-formed "42" aborts with a's
parse error instead of resolving to 42, because the switch parses every
source's value inside the loop. -/
theorem c2_counterexample :
    (populateDefaultType
      (fun src => mkBeh
        (fun _ _ => if src = "a" then .ok "abc" else .ok "42")
        (fun _ _ => .ok []))
      { keys := [], field := "Num", kind := .int, value := .scalar (.sInt 0) }
      ["a", "b"]).1 = .error (.parseError "ParseInt" "abc") := by
  decide

/-- C2 (amended): coercion is applied to the value of every source as
it is retrieved, not only to the final one: whenever a source returns a
value the switch cannot parse for the field kind, resolution aborts
with that error immediately, whatever later sources would return. -/
theorem c2_amended (beh : String → SourceBeh) (gfi : Gofiguritem)
    (prev : Option String) (src : String) (rest : List String)
    (val : String) (e : GoError)
    (hget : (beh src).getB (keyName gfi src) prev = .ok val)
    (herr : coerceScalar gfi.kind val = .error e) :
    (populateDefaultTypeAux beh gfi prev (src :: rest)).1 = .error e := by
  simp only [populateDefaultTypeAux, hget, herr]

/-- C2 witness: the amended theorem applied at the counterexample
input. -/
theorem c2_witness :
    (mkBeh (fun _ _ => .ok "abc") (fun _ _ => .ok [])).getB "Num" none = .ok "abc" ∧
    coerceScalar GoKind.int "abc" = .error (.parseError "ParseInt" "abc") ∧
    (populateDefaultTypeAux
      (fun _ => mkBeh (fun _ _ => .ok "abc") (fun _ _ => .ok []))
      { keys := [], field := "Num", kind := .int, value := .scalar (.sInt 0) }
      none ["a", "b"]).1 = .error (.parseError "ParseInt" "abc") :=
  ⟨by decide, by decide,
    c2_amended (fun _ => mkBeh (fun _ _ => .ok "abc") (fun _ _ => .ok []))
      { keys := [], field := "Num", kind := .int, value := .scalar (.sInt 0) }
      none "a" ["b"] "abc" (.parseError "ParseInt" "abc")
      (by decide) (by decide)⟩

theorem keyName_value (gfi : Gofiguritem) (v : GoValue) (src : String) :
    keyName { gfi with value := v } src = keyName gfi src := rfl

theorem kind_value (gfi : Gofiguritem) (v : GoValue) :
    ({ gfi with value := v } : Gofiguritem).kind = gfi.kind := rfl

theorem keyName_mk (gfi : Gofiguritem) (k : GoKind) (v : GoValue) (src : String) :
    keyName { keys := gfi.keys, field := gfi.field, kind := k, value := v } src =
      keyName gfi src := rfl

/-- The second component returned by the coercion switch (the final
contents of the Go variable `val`): the retrieved value, except that
the Bool branch rewrites an empty value to "false". -/
theorem coerceScalar_snd (k : GoKind) (v : String) (w : GoScalar × String)
    (h : coerceScalar k v = .ok w) :
    w.2 = (if k = .bool ∧ v.length = 0 then "false" else v) := by
  cases k <;> simp only [coerceScalar] at h <;>
    first
      | (cases h; simp)
      | (split at h
         · exact absurd h (by simp)
         · cases h
           simp)
      | (simp at h)

/-- C1 counterexample: for a bool field with order [a, b] where a
returns the empty string, b receives "false" as previous, not the
value a returned, because prevVal aliases the loop variable val, which
the Bool branch of the switch rewrites before the next iteration. -/
theorem c1_counterexample :
    ((fun src => mkBeh
        (fun _ _ => if src = "a" then .ok "" else .ok "true")
        (fun _ _ => .ok [])) "a").getB "Flag" none = .ok "" ∧
    (populateDefaultType
      (fun src => mkBeh
        (fun _ _ => if src = "a" then .ok "" else .ok "true")
        (fun _ _ => .ok []))
      { keys := [], field := "Flag", kind := .bool, value := .scalar (.sBool false) }
      ["a", "b"]).2 =
      [.getEv "a" "Flag" none, .getEv "b" "Flag" (some "false")] := by
  decide

/-- C1 (amended): for a scalar field with order [a, b], a.Get is called
first with previous nil, b.Get second, and on success the field holds
the coercion of the value b returned (last-wins).  The previous value
passed to b.Get is the value a returned, except that for a bool field
an empty value from a is rewritten to "false" before b observes it. -/
theorem c1_amended (beh : String → SourceBeh) (gfi gfi2 : Gofiguritem)
    (a b : String)
    (hsucc : (populateDefaultType beh gfi [a, b]).1 = .ok gfi2) :
    ∃ va wa vb wb,
      (beh a).getB (keyName gfi a) none = .ok va ∧
      coerceScalar gfi.kind va = .ok wa ∧
      wa.2 = (if gfi.kind = .bool ∧ va.length = 0 then "false" else va) ∧
      (beh b).getB (keyName gfi b) (some wa.2) = .ok vb ∧
      coerceScalar gfi.kind vb = .ok wb ∧
      gfi2.value = .scalar wb.1 ∧
      (populateDefaultType beh gfi [a, b]).2 =
        [.getEv a (keyName gfi a) none, .getEv b (keyName gfi b) (some wa.2)] := by
  cases hga : (beh a).getB (keyName gfi a) none with
  | error e =>
    simp only [populateDefaultType, populateDefaultTypeAux, hga] at hsucc
    exact absurd hsucc (by simp)
  | ok va =>
    cases hca : coerceScalar gfi.kind va with
    | error e =>
      simp only [populateDefaultType, populateDefaultTypeAux, hga, hca] at hsucc
      exact absurd hsucc (by simp)
    | ok wa =>
      cases hgb : (beh b).getB (keyName gfi b) (some wa.2) with
      | error e =>
        simp only [populateDefaultType, populateDefaultTypeAux, keyName_value,
          kind_value, hga, hca, hgb] at hsucc
        exact absurd hsucc (by simp)
      | ok vb =>
        cases hcb : coerceScalar gfi.kind vb with
        | error e =>
          simp only [populateDefaultType, populateDefaultTypeAux, keyName_value,
            kind_value, hga, hca, hgb, hcb] at hsucc
          exact absurd hsucc (by simp)
        | ok wb =>
          refine ⟨va, wa, vb, wb, rfl, hca, coerceScalar_snd _ _ _ hca, hgb, hcb, ?_, ?_⟩
          · simp only [populateDefaultType, populateDefaultTypeAux, keyName_value,
              kind_value, hga, hca, hgb, hcb, Except.ok.injEq] at hsucc
            rw [← hsucc]
          · simp only [populateDefaultType, populateDefaultTypeAux, keyName_value,
              kind_value, hga, hca, hgb, hcb]

/-- C1 witness: the amended theorem applied at an int field with a
returning "1" and b returning "2"; the field ends at 2. -/
theorem c1_witness :
    (populateDefaultType
      (fun src => mkBeh
        (fun _ _ => if src = "a" then .ok "1" else .ok "2")
        (fun _ _ => .ok []))
      { keys := [], field := "Num", kind := .int, value := .scalar (.sInt 0) }
      ["a", "b"]).1 =
      .ok { keys := [], field := "Num", kind := .int, value := .scalar (.sInt 2) } ∧
    (∃ va wa vb wb,
      ((fun src => mkBeh
        (fun _ _ => if src = "a" then .ok "1" else .ok "2")
        (fun _ _ => .ok [])) "a").getB
        (keyName { keys := [], field := "Num", kind := .int, value := .scalar (.sInt 0) } "a")
        none = .ok va ∧
      coerceScalar .int va = .ok wa ∧
      wa.2 = (if GoKind.int = .bool ∧ va.length = 0 then "false" else va) ∧
      ((fun src => mkBeh
        (fun _ _ => if src = "a" then .ok "1" else .ok "2")
        (fun _ _ => .ok [])) "b").getB
        (keyName { keys := [], field := "Num", kind := .int, value := .scalar (.sInt 0) } "b")
        (some wa.2) = .ok vb ∧
      coerceScalar .int vb = .ok wb ∧
      GoValue.scalar (.sInt 2) = .scalar wb.1 ∧
      (populateDefaultType
        (fun src => mkBeh
          (fun _ _ => if src = "a" then .ok "1" else .ok "2")
          (fun _ _ => .ok []))
        { keys := [], field := "Num", kind := .int, value := .scalar (.sInt 0) }
        ["a", "b"]).2 =
        [.getEv "a" (keyName { keys := [], field := "Num", kind := .int, value := .scalar (.sInt 0) } "a") none,
         .getEv "b" (keyName { keys := [], field := "Num", kind := .int, value := .scalar (.sInt 0) } "b") (some wa.2)]) :=
  ⟨by decide,
    c1_amended
      (fun src => mkBeh
        (fun _ _ => if src = "a" then .ok "1" else .ok "2")
        (fun _ _ => .ok []))
      { keys := [], field := "Num", kind := .int, value := .scalar (.sInt 0) }
      { keys := [], field := "Num", kind := .int, value := .scalar (.sInt 2) }
      "a" "b" (by decide)⟩

theorem appendElemsLoop_acc (f : String → Except GoError GoScalar)
    (vs : List String) :
    ∀ cur, appendElemsLoop f cur vs =
      (appendElemsLoop f [] vs).map (fun new => cur ++ new) := by
  induction vs with
  | nil => intro cur; simp [appendElemsLoop, Except.map]
  | cons v rest ih =>
    intro cur
    simp only [appendElemsLoop]
    cases hf : f v with
    | error e => simp [Except.map]
    | ok x =>
      show appendElemsLoop f (cur ++ [x]) rest =
        (appendElemsLoop f ([] ++ [x]) rest).map (fun new => cur ++ new)
      rw [ih (cur ++ [x]), ih ([] ++ [x])]
      cases hrest : appendElemsLoop f [] rest with
      | error e => simp [Except.map]
      | ok new => simp [Except.map]

/-- Appending via the inner switch splits: the result of appending to
cur is cur followed by what appending to the empty slice produces. -/
theorem appendElems_acc (ek : GoKind) (cur : List GoScalar)
    (vs : List String) :
    appendElems ek cur vs =
      (appendElems ek [] vs).map (fun new => cur ++ new) := by
  unfold appendElems
  split
  · exact appendElemsLoop_acc _ vs cur
  · simp [Except.map]

/-- C3: for a sequence field with order [a, b], GetArray is called on
each source with previous nil (prevVal is never reassigned), and on
success the field ends as the coerced elements of a.GetArray followed
by the coerced elements of b.GetArray, concatenated in order, without
deduplication. -/
theorem c3_slice_two_sources (beh : String → SourceBeh)
    (gfi gfi2 : Gofiguritem) (a b : String) (ek : GoKind)
    (hkind : gfi.kind = .sliceOf ek)
    (hzero : gfi.value = .vSlice [])
    (hsucc : (populateSliceType beh gfi [a, b]).1 = .ok gfi2) :
    ∃ va vb ca cb,
      (beh a).getArrayB (keyName gfi a) none = .ok va ∧
      (beh b).getArrayB (keyName gfi b) none = .ok vb ∧
      appendElems ek [] va = .ok ca ∧
      appendElems ek [] vb = .ok cb ∧
      gfi2.value = .vSlice (ca ++ cb) ∧
      (populateSliceType beh gfi [a, b]).2 =
        [.getArrayEv a (keyName gfi a) none, .getArrayEv b (keyName gfi b) none] := by
  cases hga : (beh a).getArrayB (keyName gfi a) none with
  | error e =>
    simp only [populateSliceType, hga] at hsucc
    exact absurd hsucc (by simp)
  | ok va =>
    cases hap : appendElems ek [] va with
    | error e =>
      simp only [populateSliceType, hga, hkind, hzero, getSliceElems, hap] at hsucc
      exact absurd hsucc (by simp)
    | ok ca =>
      cases hgb : (beh b).getArrayB (keyName gfi b) none with
      | error e =>
        simp only [populateSliceType, hga, hkind, hzero, getSliceElems, hap,
          keyName_mk, hgb] at hsucc
        exact absurd hsucc (by simp)
      | ok vb =>
        cases hbp : appendElems ek [] vb with
        | error e =>
          simp only [populateSliceType, hga, hkind, hzero, getSliceElems, hap,
            keyName_mk, hgb, appendElems_acc ek ca vb, hbp,
            Except.map] at hsucc
          exact absurd hsucc (by simp)
        | ok cb =>
          refine ⟨va, vb, ca, cb, rfl, rfl, hap, hbp, ?_, ?_⟩
          · simp only [populateSliceType, hga, hkind, hzero, getSliceElems, hap,
              keyName_mk, hgb, appendElems_acc ek ca vb, hbp,
              Except.map, Except.ok.injEq] at hsucc
            rw [← hsucc]
          · simp only [populateSliceType, hga, hkind, hzero, getSliceElems, hap,
              keyName_mk, hgb, appendElems_acc ek ca vb, hbp,
              Except.map]

/-- C3 witness: a string-slice field with a returning [x, y] and b
returning [y, z]; the field ends as [x, y, y, z], y kept twice. -/
theorem c3_witness :
    GoKind.sliceOf GoKind.string = GoKind.sliceOf GoKind.string ∧
    GoValue.vSlice ([] : List GoScalar) = GoValue.vSlice [] ∧
    (populateSliceType
      (fun src => mkBeh (fun _ _ => .ok "")
        (fun _ _ => if src = "a" then .ok ["x", "y"] else .ok ["y", "z"]))
      { keys := [], field := "Tags", kind := .sliceOf .string, value := .vSlice [] }
      ["a", "b"]).1 =
      .ok { keys := [], field := "Tags", kind := .sliceOf .string,
            value := .vSlice [.sString "x", .sString "y", .sString "y", .sString "z"] } ∧
    (∃ va vb ca cb,
      ((fun src => mkBeh (fun _ _ => .ok "")
        (fun _ _ => if src = "a" then .ok ["x", "y"] else .ok ["y", "z"])) "a").getArrayB
        (keyName { keys := [], field := "Tags", kind := .sliceOf .string, value := .vSlice [] } "a")
        none = .ok va ∧
      ((fun src => mkBeh (fun _ _ => .ok "")
        (fun _ _ => if src = "a" then .ok ["x", "y"] else .ok ["y", "z"])) "b").getArrayB
        (keyName { keys := [], field := "Tags", kind := .sliceOf .string, value := .vSlice [] } "b")
        none = .ok vb ∧
      appendElems .string [] va = .ok ca ∧
      appendElems .string [] vb = .ok cb ∧
      ({ keys := [], field := "Tags", kind := .sliceOf .string,
         value := .vSlice [.sString "x", .sString "y", .sString "y", .sString "z"] } : Gofiguritem).value =
        .vSlice (ca ++ cb) ∧
      (populateSliceType
        (fun src => mkBeh (fun _ _ => .ok "")
          (fun _ _ => if src = "a" then .ok ["x", "y"] else .ok ["y", "z"]))
        { keys := [], field := "Tags", kind := .sliceOf .string, value := .vSlice [] }
        ["a", "b"]).2 =
        [.getArrayEv "a" (keyName { keys := [], field := "Tags", kind := .sliceOf .string, value := .vSlice [] } "a") none,
         .getArrayEv "b" (keyName { keys := [], field := "Tags", kind := .sliceOf .string, value := .vSlice [] } "b") none]) :=
  ⟨rfl, rfl, by decide,
    c3_slice_two_sources
      (fun src => mkBeh (fun _ _ => .ok "")
        (fun _ _ => if src = "a" then .ok ["x", "y"] else .ok ["y", "z"]))
      { keys := [], field := "Tags", kind := .sliceOf .string, value := .vSlice [] }
      { keys := [], field := "Tags", kind := .sliceOf .string,
        value := .vSlice [.sString "x", .sString "y", .sString "y", .sString "z"] }
      "a" "b" .string rfl rfl (by decide)⟩

theorem populateSliceType_unsupported (beh : String → SourceBeh)
    (ek : GoKind) (hu : sliceElemSupported ek = false) :
    ∀ (order : List String) (gfi : Gofiguritem) (l : List GoScalar),
      gfi.kind = .sliceOf ek → gfi.value = .vSlice l →
      ∀ gfi2, (populateSliceType beh gfi order).1 = .ok gfi2 →
        gfi2.value = .vSlice l := by
  intro order
  induction order with
  | nil =>
    intro gfi l hk hv gfi2 hrun
    simp only [populateSliceType, Except.ok.injEq] at hrun
    rw [← hrun]
    exact hv
  | cons src rest ih =>
    intro gfi l hk hv gfi2 hrun
    cases hga : (beh src).getArrayB (keyName gfi src) none with
    | error e =>
      simp only [populateSliceType, hga] at hrun
      exact absurd hrun (by simp)
    | ok val =>
      simp only [populateSliceType, hga, hk, hv, getSliceElems,
        appendElems, hu] at hrun
      exact ih ⟨gfi.keys, gfi.field, ek.sliceOf, GoValue.vSlice l⟩ l rfl rfl gfi2 hrun

/-- C4 counterexample: a float-slice field is silently skipped rather
than rejected: with a source returning ["1.5"] for it, populateStruct
succeeds and leaves the field empty instead of producing the
UnsupportedFieldType error the claim requires, because the error
return in the default case of the element-kind switch is commented out
in the source (lines 477-480). -/
theorem c4_counterexample :
    populateStruct
      (fun _ => mkBeh (fun _ _ => .ok "") (fun _ _ => .ok ["1.5"]))
      ["a"]
      [{ keys := [], field := "Fs", kind := .sliceOf .float64, value := .vSlice [] }] =
      (.ok [{ keys := [], field := "Fs", kind := .sliceOf .float64, value := .vSlice [] }],
        [.getArrayEv "a" "Fs" none]) := by
  decide

/-- C4 (amended): a field whose top-level kind has no rule (chan, func,
pointer, map, struct, array, complex, uintptr, interface, invalid,
unsafe pointer) produces UnsupportedFieldType when encountered, but a
sequence field whose element kind has no coercion rule (e.g. a float
slice) is silently skipped: population succeeds, GetArray is still
called and its results are discarded, and the field keeps its previous
value. -/
theorem c4_amended (beh : String → SourceBeh) (order : List String)
    (gfi gfi2 g2 : Gofiguritem) (ek : GoKind) (l : List GoScalar)
    (hk : gfi.kind = .sliceOf ek)
    (hu : sliceElemSupported ek = false)
    (hl : gfi.value = .vSlice l)
    (hrun : (populateSliceType beh gfi order).1 = .ok gfi2)
    (htop : topUnsupported g2.kind = true) :
    gfi2.value = gfi.value ∧
    (populateStructField beh order g2).1 = .error .unsupportedFieldType := by
  constructor
  · rw [hl]
    exact populateSliceType_unsupported beh ek hu order gfi l hk hl gfi2 hrun
  · simp only [populateStructField, htop, if_true]

/-- C4 witness: the amended theorem applied to a float64-slice field
(the source returning ["1.5"], the field staying empty) and a
chan-kinded field (rejected with UnsupportedFieldType). -/
theorem c4_witness :
    ({ keys := [], field := "Fs", kind := .sliceOf .float64, value := .vSlice [] } : Gofiguritem).kind =
      .sliceOf .float64 ∧
    sliceElemSupported .float64 = false ∧
    ({ keys := [], field := "Fs", kind := .sliceOf .float64, value := .vSlice [] } : Gofiguritem).value =
      .vSlice [] ∧
    (populateSliceType (fun _ => mkBeh (fun _ _ => .ok "") (fun _ _ => .ok ["1.5"]))
      { keys := [], field := "Fs", kind := .sliceOf .float64, value := .vSlice [] }
      ["a"]).1 =
      .ok { keys := [], field := "Fs", kind := .sliceOf .float64, value := .vSlice [] } ∧
    topUnsupported ({ keys := [], field := "Ch", kind := .chanK, value := .vZero } : Gofiguritem).kind = true ∧
    (({ keys := [], field := "Fs", kind := .sliceOf .float64, value := .vSlice [] } : Gofiguritem).value =
      ({ keys := [], field := "Fs", kind := .sliceOf .float64, value := .vSlice [] } : Gofiguritem).value ∧
     (populateStructField (fun _ => mkBeh (fun _ _ => .ok "") (fun _ _ => .ok ["1.5"]))
       ["a"] { keys := [], field := "Ch", kind := .chanK, value := .vZero }).1 =
       .error .unsupportedFieldType) :=
  ⟨rfl, rfl, rfl, by decide, rfl,
    c4_amended (fun _ => mkBeh (fun _ _ => .ok "") (fun _ _ => .ok ["1.5"]))
      ["a"]
      { keys := [], field := "Fs", kind := .sliceOf .float64, value := .vSlice [] }
      { keys := [], field := "Fs", kind := .sliceOf .float64, value := .vSlice [] }
      { keys := [], field := "Ch", kind := .chanK, value := .vZero }
      .float64 [] rfl rfl rfl (by decide) rfl⟩

/-- The trace contains no Cleanup event. -/
def noClean (evs : List Event) : Bool := evs.all (fun e => !e.isCleanup)

theorem noClean_append (l1 l2 : List Event) :
    noClean (l1 ++ l2) = (noClean l1 && noClean l2) := List.all_append

theorem noClean_initSources (beh : String → SourceBeh)
    (params : List (String × List (String × String))) :
    ∀ order, noClean (initSources beh params order).2 = true := by
  intro order
  induction order with
  | nil => rfl
  | cons o rest ih =>
    cases hi : (beh o).initB (paramsLookup params o) with
    | error e => simp only [initSources, hi]; rfl
    | ok u =>
      simp only [initSources, hi, noClean, List.all_cons, Bool.and_eq_true]
      exact ⟨rfl, ih⟩

theorem noClean_registerField (beh : String → SourceBeh) (gfi : Gofiguritem) :
    ∀ order, noClean (registerField beh gfi order).2 = true := by
  intro order
  induction order with
  | nil => rfl
  | cons o rest ih =>
    cases hr : (beh o).registerB (keyName gfi o) "" gfi.keys gfi.kind with
    | error e => simp only [registerField, hr]; rfl
    | ok u =>
      simp only [registerField, hr, noClean, List.all_cons, Bool.and_eq_true]
      exact ⟨rfl, ih⟩

theorem noClean_registerFields (beh : String → SourceBeh) (order : List String) :
    ∀ fields, noClean (registerFields beh order fields).2 = true := by
  intro fields
  induction fields with
  | nil => rfl
  | cons gfi rest ih =>
    have h1 := noClean_registerField beh gfi order
    cases hf : registerField beh gfi order with
    | mk r evs =>
      rw [hf] at h1
      cases r with
      | error e => simp only [registerFields, hf]; exact h1
      | ok u =>
        have h2 := ih
        cases hrest : registerFields beh order rest with
        | mk r2 evs2 =>
          rw [hrest] at h2
          cases r2 <;>
            (simp only [registerFields, hf, hrest]
             show noClean (evs ++ evs2) = true
             rw [noClean_append, Bool.and_eq_true]
             exact ⟨by simpa using h1, by simpa using h2⟩)

theorem noClean_populateDefaultTypeAux (beh : String → SourceBeh) :
    ∀ (order : List String) (gfi : Gofiguritem) (prev : Option String),
      noClean (populateDefaultTypeAux beh gfi prev order).2 = true := by
  intro order
  induction order with
  | nil => intro gfi prev; rfl
  | cons src rest ih =>
    intro gfi prev
    cases hg : (beh src).getB (keyName gfi src) prev with
    | error e => simp only [populateDefaultTypeAux, hg]; rfl
    | ok val =>
      cases hc : coerceScalar gfi.kind val with
      | error e => simp only [populateDefaultTypeAux, hg, hc]; rfl
      | ok vw =>
        simp only [populateDefaultTypeAux, hg, hc, noClean, List.all_cons,
          Bool.and_eq_true]
        exact ⟨rfl, ih _ _⟩

theorem noClean_populateSliceType (beh : String → SourceBeh) :
    ∀ (order : List String) (gfi : Gofiguritem),
      noClean (populateSliceType beh gfi order).2 = true := by
  intro order
  induction order with
  | nil => intro gfi; rfl
  | cons src rest ih =>
    intro gfi
    cases hg : (beh src).getArrayB (keyName gfi src) none with
    | error e => simp only [populateSliceType, hg]; rfl
    | ok val =>
      cases hk : gfi.kind
      case sliceOf ek =>
        cases ha : appendElems ek (getSliceElems gfi.value) val with
        | error e => simp only [populateSliceType, hg, hk, ha]; rfl
        | ok elems =>
          simp only [populateSliceType, hg, hk, ha, noClean, List.all_cons,
            Bool.and_eq_true]
          exact ⟨rfl, ih _⟩
      all_goals
        simp only [populateSliceType, hg, hk, noClean, List.all_cons,
          Bool.and_eq_true]
        exact ⟨rfl, ih _⟩

theorem noClean_populateStructField (beh : String → SourceBeh)
    (order : List String) (gfi : Gofiguritem) :
    noClean (populateStructField beh order gfi).2 = true := by
  unfold populateStructField
  split
  · rfl
  · split
    · exact noClean_populateSliceType beh order _
    · exact noClean_populateDefaultTypeAux beh order _ _

theorem noClean_populateStruct (beh : String → SourceBeh) (order : List String) :
    ∀ fields, noClean (populateStruct beh order fields).2 = true := by
  intro fields
  induction fields with
  | nil => rfl
  | cons gfi rest ih =>
    have h1 := noClean_populateStructField beh order gfi
    cases hf : populateStructField beh order gfi with
    | mk r evs =>
      rw [hf] at h1
      cases r with
      | error e => simp only [populateStruct, hf]; exact h1
      | ok gfi2 =>
        have h2 := ih
        cases hrest : populateStruct beh order rest with
        | mk r2 evs2 =>
          rw [hrest] at h2
          cases r2 <;>
            (simp only [populateStruct, hf, hrest]
             show noClean (evs ++ evs2) = true
             rw [noClean_append, Bool.and_eq_true]
             exact ⟨by simpa using h1, by simpa using h2⟩)

/-- C5: on every exit path of Apply — Init failure, Register failure,
Populate failure or success — the trace ends with exactly the Cleanup
calls, one per source named in order, in order position, and no Cleanup
call occurs anywhere before them. -/
theorem c5_cleanup_always (beh : String → SourceBeh) (gfg : Gofiguration) :
    ∃ body, (Apply beh gfg).2 = body ++ cleanupSources gfg.order ∧
      noClean body = true ∧
      cleanupSources gfg.order = gfg.order.map Event.cleanupEv := by
  unfold Apply
  cases h1 : initSources beh gfg.params gfg.order with
  | mk r1 e1 =>
    have hn1 := noClean_initSources beh gfg.params gfg.order
    rw [h1] at hn1
    cases r1 with
    | error e => exact ⟨e1, rfl, hn1, rfl⟩
    | ok u =>
      cases h2 : registerFields beh gfg.order gfg.fields with
      | mk r2 e2 =>
        have hn2 := noClean_registerFields beh gfg.order gfg.fields
        rw [h2] at hn2
        cases r2 with
        | error e =>
          refine ⟨e1 ++ e2, by simp, ?_, rfl⟩
          rw [noClean_append, hn1, hn2]
          rfl
        | ok u2 =>
          cases h3 : populateStruct beh gfg.order gfg.fields with
          | mk r3 e3 =>
            have hn3 := noClean_populateStruct beh gfg.order gfg.fields
            rw [h3] at hn3
            refine ⟨e1 ++ e2 ++ e3, by simp, ?_, rfl⟩
            rw [noClean_append, noClean_append, hn1, hn2, hn3]
            rfl

theorem parseGofigureLoop_invalidOrder (tags : List (String × String)) :
    ∀ (gfg : Gofiguration) (v : String), ("order", v) ∈ tags →
      ((splitComma v).all (fun p => sourcesNames.contains p)) = false →
      parseGofigureLoop gfg tags = .error .invalidOrder := by
  induction tags with
  | nil => intro gfg v h; simp at h
  | cons kv rest ih =>
    intro gfg v hmem hbad
    obtain ⟨name, value⟩ := kv
    simp only [List.mem_cons] at hmem
    rcases hmem with heq | hmem
    · injection heq with h1 h2
      subst h1
      subst h2
      simp only [parseGofigureLoop]
      rw [if_pos trivial, if_neg (by rw [hbad]; exact Bool.false_ne_true)]
    · by_cases hname : name = "order"
      · subst hname
        cases hval : (splitComma value).all (fun p => sourcesNames.contains p) with
        | true =>
          simp only [parseGofigureLoop, hval, if_true]
          exact ih _ v hmem hbad
        | false =>
          simp only [parseGofigureLoop]
          rw [if_pos trivial, if_neg (by rw [hval]; exact Bool.false_ne_true)]
      · simp only [parseGofigureLoop, if_neg hname]
        exact ih _ v hmem hbad

/-- C6: when the order directive names an unregistered source,
ParseStruct fails with InvalidOrder before resolution begins, and the
whole Gofigure run returns that error with an empty event trace: no
source is initialized, registered or queried, and no field is
populated, so the bound record is untouched. -/
theorem c6_invalid_order (beh : String → SourceBeh) (s : GoStruct)
    (gf : GoStructField) (v : String)
    (hfind : s.fields.find? (fun f => f.name = "gofigure") = some gf)
    (hmem : ("order", v) ∈ getStructTags gf.tag)
    (hbad : ((splitComma v).all (fun p => sourcesNames.contains p)) = false) :
    ParseStruct s = .error .invalidOrder ∧
    Gofigure beh s = (.error .invalidOrder, []) := by
  have hps : ParseStruct s = Except.error GoError.invalidOrder := by
    simp only [ParseStruct, parseGofigureField, hfind,
      parseGofigureLoop_invalidOrder (getStructTags gf.tag)
        { order := DefaultOrder, params := [], fields := [] } v hmem hbad]
  refine ⟨hps, ?_⟩
  unfold Gofigure
  rw [hps]

/-- C6 witness: the directive order:"flag,bogus" where bogus is not a
registered source name. -/
theorem c6_witness :
    ({ fields := [
        { name := "gofigure", tag := "order:\"flag,bogus\"", kind := .structK },
        { name := "Flag", tag := "", kind := .bool } ] } : GoStruct).fields.find?
        (fun f => f.name = "gofigure") =
      some { name := "gofigure", tag := "order:\"flag,bogus\"", kind := .structK } ∧
    ("order", "flag,bogus") ∈ getStructTags "order:\"flag,bogus\"" ∧
    ((splitComma "flag,bogus").all (fun p => sourcesNames.contains p)) = false ∧
    (ParseStruct { fields := [
        { name := "gofigure", tag := "order:\"flag,bogus\"", kind := .structK },
        { name := "Flag", tag := "", kind := .bool } ] } = .error .invalidOrder ∧
     Gofigure (fun _ => mkBeh (fun _ _ => .ok "") (fun _ _ => .ok []))
       { fields := [
          { name := "gofigure", tag := "order:\"flag,bogus\"", kind := .structK },
          { name := "Flag", tag := "", kind := .bool } ] } =
       (.error .invalidOrder, [])) :=
  ⟨by decide, by decide, by decide,
    c6_invalid_order (fun _ => mkBeh (fun _ _ => .ok "") (fun _ _ => .ok []))
      { fields := [
          { name := "gofigure", tag := "order:\"flag,bogus\"", kind := .structK },
          { name := "Flag", tag := "", kind := .bool } ] }
      { name := "gofigure", tag := "order:\"flag,bogus\"", kind := .structK }
      "flag,bogus" (by decide) (by decide) (by decide)⟩

/-- A tag remainder whose first token is malformed: non-blank, and
either the name scan does not end at a colon followed by an opening
quote (missing colon), or the quoted value never terminates
(unterminated quote). -/
def malformedTok (r : List Char) : Bool :=
  !(r.dropWhile (fun c => c == ' ')).isEmpty &&
    (match colonQuote ((r.dropWhile (fun c => c == ' ')).dropWhile isNameChar) with
     | none => true
     | some rest2 => (scanQ rest2).isNone)

theorem malformedTok_parseOneTag (r : List Char)
    (h : malformedTok r = true) : parseOneTag r = none := by
  unfold malformedTok at h
  unfold parseOneTag
  rw [Bool.and_eq_true] at h
  obtain ⟨h1, h2⟩ := h
  have h1e : (r.dropWhile (fun c => c == ' ')).isEmpty = false := by
    simpa using h1
  rw [if_neg (fun hc => absurd (h1e.symm.trans hc) (by decide))]
  cases hcq : colonQuote ((r.dropWhile (fun c => c == ' ')).dropWhile isNameChar) with
  | none => rfl
  | some rest2 =>
    rw [hcq] at h2
    simp only [Option.isNone_iff_eq_none] at h2
    simp only [h2]

/-- One rendered well-formed pair of the tag micro-syntax,
`key:"value"`. -/
def renderPair (kv : String × String) : List Char :=
  kv.1.data ++ ':' :: '"' :: kv.2.data ++ ['"']

def renderPairs (ps : List (String × String)) : List Char :=
  (ps.map renderPair).flatten

/-- A well-formed key: non-empty, no space, colon or quote. -/
def goodKey (k : String) : Bool := !k.isEmpty && k.data.all isNameChar

/-- A plain value: no quote, backslash or newline, so that it renders
and unquotes verbatim. -/
def plainValue (v : String) : Bool :=
  v.data.all (fun c => c ≠ '"' && c ≠ '\\' && c ≠ '\n')

theorem asString_data (s : String) : s.data.asString = s := rfl

theorem takeWhile_exact (p : Char → Bool) :
    ∀ (xs : List Char) (y : Char) (ys : List Char),
      (∀ c ∈ xs, p c = true) → p y = false →
      ((xs ++ y :: ys).takeWhile p = xs ∧ (xs ++ y :: ys).dropWhile p = y :: ys) := by
  intro xs
  induction xs with
  | nil =>
    intro y ys hall hy
    simp [List.takeWhile_cons, List.dropWhile_cons, hy]
  | cons x xs ih =>
    intro y ys hall hy
    have hx : p x = true := hall x (by simp)
    obtain ⟨ht, hd⟩ := ih y ys (fun c hc => hall c (by simp [hc])) hy
    simp [List.takeWhile_cons, List.dropWhile_cons, hx, ht, hd]

theorem scanQ_plain :
    ∀ (v rest : List Char), (∀ c ∈ v, c ≠ '"' ∧ c ≠ '\\') →
      scanQ (v ++ '"' :: rest) = some (v, rest) := by
  intro v
  induction v with
  | nil =>
    intro rest h
    rw [scanQ.eq_def]
    simp
  | cons c cs ih =>
    intro rest h
    obtain ⟨h1, h2⟩ := h c (by simp)
    rw [scanQ.eq_def]
    simp only [List.cons_append]
    rw [if_neg h1, if_neg h2]
    rw [ih rest (fun c hc => h c (by simp [hc]))]

theorem unquoteChars_plain :
    ∀ (v : List Char), (∀ c ∈ v, c ≠ '"' ∧ c ≠ '\\' ∧ c ≠ '\n') →
      unquoteChars v = some v := by
  intro v
  induction v with
  | nil => intro h; rfl
  | cons c rest ih =>
    intro h
    obtain ⟨h1, h2, h3⟩ := h c (by simp)
    have hih := ih (fun x hx => h x (by simp [hx]))
    rw [unquoteChars.eq_def]
    simp only []
    rw [if_neg h2, if_neg h1, if_neg h3, hih]

theorem parseOneTag_render (k v : String) (rest : List Char)
    (hk : goodKey k = true) (hv : plainValue v = true) :
    parseOneTag (renderPair (k, v) ++ rest) = some ((k, v), rest) := by
  unfold goodKey at hk
  rw [Bool.and_eq_true] at hk
  obtain ⟨hk1, hk2⟩ := hk
  unfold plainValue at hv
  rw [List.all_eq_true] at hk2 hv
  have hvchars : ∀ c ∈ v.data, c ≠ '"' ∧ c ≠ '\\' ∧ c ≠ '\n' := by
    intro c hc
    have := hv c hc
    simp only [Bool.and_eq_true, decide_eq_true_eq] at this
    exact ⟨this.1.1, this.1.2, this.2⟩
  have hkchars : ∀ c ∈ k.data, isNameChar c = true := fun c hc => hk2 c hc
  unfold renderPair
  simp only []
  have hassoc : (k.data ++ ':' :: '"' :: v.data ++ ['"']) ++ rest =
      k.data ++ ':' :: '"' :: (v.data ++ '"' :: rest) := by
    simp [List.append_assoc]
  rw [hassoc]
  obtain ⟨hspan1, hspan2⟩ :=
    takeWhile_exact isNameChar k.data ':' ('"' :: (v.data ++ '"' :: rest))
      hkchars (by decide)
  have hnospace : (k.data ++ ':' :: '"' :: (v.data ++ '"' :: rest)).dropWhile
      (fun c => c == ' ') = k.data ++ ':' :: '"' :: (v.data ++ '"' :: rest) := by
    cases hd : k.data with
    | nil =>
      exfalso
      obtain ⟨d⟩ := k
      have hd2 : d = [] := hd
      subst hd2
      exact absurd hk1 (by decide)
    | cons c cs =>
      have hc : isNameChar c = true := hkchars c (by simp [hd])
      have hcs : ¬(c == ' ') = true := by
        unfold isNameChar at hc
        simp only [Bool.and_eq_true] at hc
        simp only [beq_iff_eq]
        intro hcontra
        rw [hcontra] at hc
        simp at hc
      simp [hd, List.dropWhile_cons, hcs]
  have hne : (k.data ++ ':' :: '"' :: (v.data ++ '"' :: rest)).isEmpty = false := by
    cases hd : k.data with
    | nil => rfl
    | cons c cs => rfl
  unfold parseOneTag
  rw [hnospace]
  rw [if_neg (fun hc => absurd (hne.symm.trans hc) (by decide))]
  rw [hspan2]
  simp only [colonQuote, scanQ_plain v.data rest
      (fun c hc => ⟨(hvchars c hc).1, (hvchars c hc).2.1⟩),
    hspan1, goUnquote, unquoteChars_plain v.data hvchars, asString_data]

theorem getStructTagsFuel_prefix :
    ∀ (ps : List (String × String)) (fuel : Nat) (r : List Char)
      (m : List (String × String)),
      (renderPairs ps ++ r).length < fuel →
      ps.all (fun kv => goodKey kv.1) = true →
      ps.all (fun kv => plainValue kv.2) = true →
      malformedTok r = true →
      getStructTagsFuel fuel (renderPairs ps ++ r) m =
        ps.foldl (fun m kv => tagsInsert m kv.1 kv.2) m := by
  intro ps
  induction ps with
  | nil =>
    intro fuel r m hfuel hk hv hr
    cases fuel with
    | zero => exact absurd hfuel (by omega)
    | succ f =>
      simp only [renderPairs, List.map_nil, List.flatten_nil, List.nil_append,
        List.foldl_nil] at *
      simp only [getStructTagsFuel, malformedTok_parseOneTag r hr]
  | cons kv ps ih =>
    intro fuel r m hfuel hk hv hr
    obtain ⟨k, v⟩ := kv
    cases fuel with
    | zero => exact absurd hfuel (by omega)
    | succ f =>
      have hpair : renderPairs ((k, v) :: ps) ++ r =
          renderPair (k, v) ++ (renderPairs ps ++ r) := by
        simp [renderPairs, List.append_assoc]
      rw [hpair] at hfuel ⊢
      simp only [List.all_cons, Bool.and_eq_true] at hk hv
      simp only [getStructTagsFuel,
        parseOneTag_render k v (renderPairs ps ++ r) hk.1 hv.1,
        List.foldl_cons]
      apply ih f _ _ _ hk.2 hv.2 hr
      have h4 : 0 < (renderPair (k, v)).length := by
        unfold renderPair
        simp only [List.length_append, List.length_cons]
        omega
      rw [List.length_append] at hfuel
      omega

/-- C7: the directive parser never signals an error; for any sequence
of well-formed pairs followed by a remainder whose first token is
malformed (missing colon-quote or unterminated value), it returns
exactly the map of the pairs parsed before the malformed token. -/
theorem c7_prefix_policy (ps : List (String × String)) (r : List Char)
    (hk : ps.all (fun kv => goodKey kv.1) = true)
    (hv : ps.all (fun kv => plainValue kv.2) = true)
    (hr : malformedTok r = true) :
    getStructTags (renderPairs ps ++ r).asString =
      ps.foldl (fun m kv => tagsInsert m kv.1 kv.2) [] := by
  unfold getStructTags
  have hdata : ((renderPairs ps ++ r).asString).data = renderPairs ps ++ r := rfl
  have hlen : ((renderPairs ps ++ r).asString).length =
      (renderPairs ps ++ r).length := rfl
  rw [hdata, hlen]
  exact getStructTagsFuel_prefix ps _ r [] (by omega) hk hv hr

/-- C7 witness: the tag a:"1"x, whose remainder x lacks a colon; the
parser returns the single parsed pair. -/
theorem c7_witness :
    ([("a", "1")] : List (String × String)).all (fun kv => goodKey kv.1) = true ∧
    ([("a", "1")] : List (String × String)).all (fun kv => plainValue kv.2) = true ∧
    malformedTok ['x'] = true ∧
    getStructTags (renderPairs [("a", "1")] ++ ['x']).asString =
      ([("a", "1")] : List (String × String)).foldl
        (fun m kv => tagsInsert m kv.1 kv.2) [] :=
  ⟨by decide, by decide, by decide,
    c7_prefix_policy [("a", "1")] ['x'] (by decide) (by decide) (by decide)⟩

theorem upper_not_lower (c : Char) (h : isUpperAZ c = true) :
    isLowerAZ c = false := by
  unfold isUpperAZ at h
  rw [Bool.and_eq_true] at h
  have h2 : c ≤ 'Z' := of_decide_eq_true h.2
  unfold isLowerAZ
  cases hl : (decide ('a' ≤ c) && decide (c ≤ 'z')) with
  | false => rfl
  | true =>
    rw [Bool.and_eq_true] at hl
    have h3 : 'a' ≤ c := of_decide_eq_true hl.1
    have : ('a' : Char) ≤ 'Z' := le_trans h3 h2
    exact absurd this (by decide)

theorem takeWhile_all (p : Char → Bool) :
    ∀ l : List Char, (∀ c ∈ l, p c = true) → l.takeWhile p = l := by
  intro l
  induction l with
  | nil => intro h; rfl
  | cons x xs ih =>
    intro h
    rw [List.takeWhile_cons, if_pos (h x (by simp))]
    rw [ih (fun c hc => h c (by simp [hc]))]

/-- For a key that is exactly a lowercase run, an uppercase letter and
a non-empty lowercase run, argRe matches the whole key and the groups
are the run before and from the uppercase letter. -/
theorem argReFind_exact (p : List Char) (u : Char) (sfx : List Char)
    (hpl : ∀ c ∈ p, isLowerAZ c = true) (hu : isUpperAZ u = true)
    (hsne : sfx ≠ []) (hsl : ∀ c ∈ sfx, isLowerAZ c = true)
    (hpne : p ≠ []) :
    argReFind (p ++ u :: sfx) = some (p, u :: sfx) := by
  obtain ⟨c, cs, rfl⟩ := List.exists_cons_of_ne_nil hpne
  obtain ⟨s0, srest, rfl⟩ := List.exists_cons_of_ne_nil hsne
  have hc : isLowerAZ c = true := hpl c (by simp)
  obtain ⟨htw, hdw⟩ := takeWhile_exact isLowerAZ cs u (s0 :: srest)
    (fun x hx => hpl x (by simp [hx])) (upper_not_lower u hu)
  rw [argReFind.eq_def]
  simp only [List.cons_append]
  rw [if_pos hc]
  simp only [hdw, htw]
  rw [if_pos (by simp [hu, hsl s0 (by simp)])]
  rw [takeWhile_all isLowerAZ (s0 :: srest) hsl]

/-- C10 counterexample: the sentinel field carries the key envX, whose
suffix X starts uppercase, so by the claim it should be stored as
params[env][x]; the code ignores it (params stays empty) because argRe
`([a-z]+)([A-Z][a-z]+)` additionally demands a lowercase letter after
the uppercase one. -/
theorem c10_counterexample :
    ParseStruct { fields := [
        { name := "gofigure", tag := "envX:\"v\"", kind := .structK },
        { name := "Flag", tag := "", kind := .bool } ] } =
      .ok { order := ["env", "flag"], params := [],
            fields := [{ keys := [], field := "Flag", kind := .bool,
                         value := .scalar (.sBool false) }] } := by
  decide

/-- C10 (amended): a non-order directive key is split and stored iff
argRe finds a match in it: a run of lowercase letters immediately
followed by an uppercase letter and at least one further lowercase
letter.  For a key of exactly that shape, the value is stored under
params[prefix][lowercase(suffix)]; keys without such an occurrence,
such as envX or envPREFIX (uppercase not followed by lowercase), are
ignored. -/
theorem c10_amended (params : List (String × List (String × String)))
    (value : String) (p : List Char) (u : Char) (sfx : List Char)
    (hpl : ∀ c ∈ p, isLowerAZ c = true) (hu : isUpperAZ u = true)
    (hsne : sfx ≠ []) (hsl : ∀ c ∈ sfx, isLowerAZ c = true)
    (hpne : p ≠ []) :
    handleArgKey params (p ++ u :: sfx).asString value =
      paramsInsert params p.asString
        (((u :: sfx).map toLowerAscii).asString) value ∧
    handleArgKey params "envX" value = params ∧
    handleArgKey params "envPREFIX" value = params := by
  refine ⟨?_, ?_, ?_⟩
  · unfold handleArgKey
    have hdata : ((p ++ u :: sfx).asString).data = p ++ u :: sfx := rfl
    simp only [hdata, argReFind_exact p u sfx hpl hu hsne hsl hpne]
  · unfold handleArgKey
    have h : argReFind ("envX".data) = none := by decide
    simp only [h]
  · unfold handleArgKey
    have h : argReFind ("envPREFIX".data) = none := by decide
    simp only [h]

/-- C10 witness: the key envPrefix splits into params[env][prefix]. -/
theorem c10_witness :
    (∀ c ∈ ['e', 'n', 'v'], isLowerAZ c = true) ∧
    isUpperAZ 'P' = true ∧
    (['r', 'e', 'f', 'i', 'x'] : List Char) ≠ [] ∧
    (∀ c ∈ ['r', 'e', 'f', 'i', 'x'], isLowerAZ c = true) ∧
    (['e', 'n', 'v'] : List Char) ≠ [] ∧
    (handleArgKey [] (['e', 'n', 'v'] ++ 'P' :: ['r', 'e', 'f', 'i', 'x']).asString "APP_" =
      paramsInsert [] (['e', 'n', 'v'] : List Char).asString
        ((('P' :: ['r', 'e', 'f', 'i', 'x']).map toLowerAscii).asString) "APP_" ∧
     handleArgKey [] "envX" "APP_" = [] ∧
     handleArgKey [] "envPREFIX" "APP_" = []) :=
  ⟨by decide, by decide, by decide, by decide, by decide,
    c10_amended [] "APP_" ['e', 'n', 'v'] 'P' ['r', 'e', 'f', 'i', 'x']
      (by decide) (by decide) (by decide) (by decide) (by decide)⟩

end Gofig
